import Mathlib

/-!
Verification of the codex MCP server core (Rust crate `codex-rs/mcp-server`)
against its natural-language specification.

The Rust code is shallowly embedded: pure functions become Lean functions,
stateful handlers become explicit state-passing functions, fallible external
calls (filesystem canonicalization, child-process spawn, engine submission,
reply channels) become explicit `Except`/`Option`-valued oracle parameters,
and Rust `String` is modelled either as Lean `String` or (where substring
search and trimming must be reasoned about) as `List Char`.

Sources embedded:
  * `src/tool_catalog.rs` — tool-name catalog and descriptor list
  * `src/message_processor.rs` — initialize handling and tools/call dispatch
  * `src/codex_message_processor.rs` — archive validation, send-user-message /
    send-user-turn, interrupt scheduling, turn-aborted draining, approval
    coordination, conversation-summary preview extraction
  * `src/aux_agents.rs` — auxiliary-agent pool
-/

namespace Codex

/-- A single-quote character, used when rendering tool-error text. -/
def squote : String := String.singleton (Char.ofNat 39)

/-- JSON-RPC request ids are either strings or integers
(`mcp_types::RequestId`). -/
inductive RequestId where
  | str (s : String)
  | int (n : Int)
deriving DecidableEq, Repr

/-- Conversation ids are opaque, stringifiable identifiers; modelled by their
string rendering. -/
abbrev ConversationId := String

/-- Minimal JSON value model, for payloads that the code builds as
`serde_json::Value`. -/
inductive Json where
  | null
  | bool (b : Bool)
  | num (n : Int)
  | str (s : String)
  | arr (xs : List Json)
  | obj (fields : List (String × Json))

/-- Symbolic JSON-RPC error codes (`src/error_code.rs` is referenced by the
embedded files; the claims only use the codes symbolically). -/
inductive ErrCode where
  | invalidRequest
  | internalError
deriving DecidableEq, Repr

/-- Rust `mcp_types::JSONRPCErrorError` restricted to the fields the claims use. -/
structure RpcError where
  code : ErrCode
  message : String
deriving DecidableEq, Repr

/-! ## Tool catalog (`src/tool_catalog.rs`) -/

/-- Rust `CODE_EDITING_TOOL_NAMES` from `tool_catalog.rs`. -/
def CODE_EDITING_TOOL_NAMES : List String :=
  [ "reply"
  , "codex"
  , "codex-reply"
  , "codex.newConversation"
  , "codex.sendUserMessage"
  , "codex.sendUserTurn"
  , "codex.execCommand"
  , "codex.gitDiffToRemote" ]

/-- Rust `ADMIN_ACTIONS` from `tool_catalog.rs` (name, description). -/
def ADMIN_ACTIONS : List (String × String) :=
  [ ("codex.listConversations", "List recorded Codex conversations.")
  , ("codex.resumeConversation", "Resume a recorded Codex conversation from a rollout file.")
  , ("codex.archiveConversation",
      "Archive a Codex conversation and move its rollout into the archived directory.")
  , ("codex.interruptConversation",
      "Request that Codex interrupt the active task for a conversation.")
  , ("codex.loginApiKey",
      "Store an API key for Codex to use when authenticating with OpenAI services.")
  , ("codex.loginChatGpt", "Initiate ChatGPT OAuth login and return the authorization URL.")
  , ("codex.cancelLoginChatGpt", "Cancel an in-flight ChatGPT OAuth login request.")
  , ("codex.logoutChatGpt", "Clear stored ChatGPT OAuth tokens.")
  , ("codex.getAuthStatus", "Return Codex authentication status for the active user.")
  , ("codex.getUserSavedConfig", "Return the saved Codex configuration from config.toml.")
  , ("codex.setDefaultModel",
      "Persist the default model (and optionally reasoning effort) in the user"
        ++ squote ++ "s config.")
  , ("codex.getUserAgent", "Return the Codex user agent string.")
  , ("codex.userInfo",
      "Return best-effort user identity information inferred from stored credentials.") ]

/-- Rust `AUX_TOOLS` from `tool_catalog.rs` (name, description). -/
def AUX_TOOLS : List (String × String) :=
  [ ("codex.spawnAuxAgent", "Spawn an auxiliary Codex CLI instance with a prompt.")
  , ("codex.stopAuxAgent", "Terminate a running auxiliary Codex CLI instance.")
  , ("codex.listAuxAgents", "List active auxiliary Codex CLI instances.") ]

/-- Rust `McpServerOpts` from `lib.rs`: the tool-exposure flag plus opaque CLI
`key=value` overrides. -/
structure McpServerOpts where
  expose_all_tools : Bool
  overrides : List (String × String)

/-- Rust `dedupe_preserving_order` from `tool_catalog.rs`: keep the first
occurrence of each name (the Rust code retains names whose insertion into a
`HashSet` of already-seen names succeeds). -/
def dedupeGo (seen : List String) : List String → List String
  | [] => []
  | x :: xs => if x ∈ seen then dedupeGo seen xs else x :: dedupeGo (x :: seen) xs

/-- Rust `dedupe_preserving_order` (entry point). -/
def dedupe_preserving_order (names : List String) : List String :=
  dedupeGo [] names

/-- Rust `compute_tool_names` from `tool_catalog.rs`.  The code starts from the
code-editing allowlist; only when `expose_all_tools` is set does it append the
administrative set, and — still inside that branch — the auxiliary set when
`max_aux_agents.unwrap_or(0) > 0`. -/
def compute_tool_names (opts : McpServerOpts) (max_aux_agents : Option Nat) : List String :=
  let ordered := CODE_EDITING_TOOL_NAMES
  let ordered :=
    if opts.expose_all_tools then
      ordered ++ ADMIN_ACTIONS.map Prod.fst ++
        (if max_aux_agents.getD 0 > 0 then AUX_TOOLS.map Prod.fst else [])
    else ordered
  dedupe_preserving_order ordered

/-- Rust `mcp_types::ToolInputSchema` restricted to the fields the catalog uses. -/
structure ToolInputSchema where
  properties : Option Json
  required : Option (List String)
  schemaType : String

/-- Rust `mcp_types::Tool` restricted to the fields the catalog uses. -/
structure Tool where
  name : String
  title : Option String
  description : Option String
  input_schema : ToolInputSchema

/-- Rust `build_simple_tool` from `tool_catalog.rs`. -/
def build_simple_tool (name description : String) : Tool :=
  { name := name
  , title := some name
  , description := some description
  , input_schema := { properties := none, required := none, schemaType := "object" } }

/-- Rust `create_reply_tool` from `tool_catalog.rs` (its `properties` JSON object,
opaque to the claims, is carried verbatim). -/
def create_reply_tool : Tool :=
  { name := "reply"
  , title := some "Reply"
  , description := some "Send a single prompt to Codex using default settings."
  , input_schema :=
      { properties := some (Json.obj
          [("prompt", Json.obj
            [ ("type", Json.str "string")
            , ("description", Json.str "User message forwarded to Codex for a quick reply.")])])
      , required := some ["prompt"]
      , schemaType := "object" } }

/-- Modelled from the spec: `create_tool_for_codex_tool_call_param` lives in
`codex_tool_config.rs`, which is not among the provided sources; per the
tool surface in the spec it yields the streaming-session descriptor named
`codex`. -/
def create_tool_for_codex_tool_call_param : Tool :=
  { name := "codex"
  , title := some "Codex"
  , description := some "Run a Codex session."
  , input_schema := { properties := none, required := none, schemaType := "object" } }

/-- Modelled from the spec: `create_tool_for_codex_tool_call_reply_param`
lives in `codex_tool_config.rs`, which is not among the provided sources; per
the tool surface in the spec it yields the streaming-session continuation
descriptor named `codex-reply`. -/
def create_tool_for_codex_tool_call_reply_param : Tool :=
  { name := "codex-reply"
  , title := some "Codex Reply"
  , description := some "Continue a Codex session."
  , input_schema := { properties := none, required := none, schemaType := "object" } }

/-- Rust `CODE_EDITING_ACTIONS` from `tool_catalog.rs` (name, description). -/
def CODE_EDITING_ACTIONS : List (String × String) :=
  [ ("codex.newConversation", "Start a new Codex conversation.")
  , ("codex.sendUserMessage", "Send user message input to an active Codex conversation.")
  , ("codex.sendUserTurn",
      "Submit a full user turn (message plus overrides) to an active Codex conversation.")
  , ("codex.execCommand",
      "Execute a one-off shell command using Codex" ++ squote ++ "s sandbox policy.")
  , ("codex.gitDiffToRemote",
      "Return the diff between the working tree and its remote for a given directory.") ]

/-- Rust `lookup_action_tool` from `tool_catalog.rs`. -/
def lookup_action_tool (name : String) : Option Tool :=
  (CODE_EDITING_ACTIONS.find? (fun p => p.1 = name)).map fun p => build_simple_tool p.1 p.2

/-- Rust `lookup_admin_tool` from `tool_catalog.rs`. -/
def lookup_admin_tool (name : String) : Option Tool :=
  (ADMIN_ACTIONS.find? (fun p => p.1 = name)).map fun p => build_simple_tool p.1 p.2

/-- Rust `lookup_aux_tool` from `tool_catalog.rs`: returns nothing when
`max_aux_agents.unwrap_or(0) == 0`. -/
def lookup_aux_tool (name : String) (max_aux_agents : Option Nat) : Option Tool :=
  if max_aux_agents.getD 0 = 0 then none
  else (AUX_TOOLS.find? (fun p => p.1 = name)).map fun p => build_simple_tool p.1 p.2

/-- Rust `build_tool_by_name` from `tool_catalog.rs`. -/
def build_tool_by_name (name : String) (max_aux_agents : Option Nat) : Option Tool :=
  if name = "reply" then some create_reply_tool
  else if name = "codex" then some create_tool_for_codex_tool_call_param
  else if name = "codex-reply" then some create_tool_for_codex_tool_call_reply_param
  else (lookup_action_tool name).orElse fun _ =>
    (lookup_admin_tool name).orElse fun _ => lookup_aux_tool name max_aux_agents

/-- Rust `.trim().is_empty()`: a string trims to empty exactly when every
character is whitespace. -/
def str_trim_empty (s : String) : Bool := s.data.all Char.isWhitespace

/-- Rust `validate_tool_schema` from `tool_catalog.rs`.  (The final
`serde_json::to_value` step always succeeds for the descriptor shapes built
above, so it contributes no failure case to the model.) -/
def validate_tool_schema (t : Tool) : Except String Unit :=
  if str_trim_empty t.name then Except.error "tool name cannot be empty"
  else if str_trim_empty t.input_schema.schemaType then
    Except.error ("tool " ++ squote ++ t.name ++ squote ++ " is missing an input schema type")
  else Except.ok ()

/-- The loop body of `list_tools`: walk the computed names, reject duplicates
against the `seen` set, build and validate each descriptor. -/
def listToolsGo (max_aux_agents : Option Nat) (seen : List String) :
    List String → Except String (List Tool)
  | [] => Except.ok []
  | name :: rest =>
    if name ∈ seen then
      Except.error ("duplicate tool " ++ squote ++ name ++ squote)
    else
      match build_tool_by_name name max_aux_agents with
      | none => Except.error ("unknown tool " ++ squote ++ name ++ squote)
      | some tool =>
        match validate_tool_schema tool with
        | Except.error e => Except.error e
        | Except.ok _ =>
          (listToolsGo max_aux_agents (name :: seen) rest).map fun tools => tool :: tools

/-- Rust `list_tools` from `tool_catalog.rs`. -/
def list_tools (opts : McpServerOpts) (max_aux_agents : Option Nat) :
    Except String (List Tool) :=
  listToolsGo max_aux_agents [] (compute_tool_names opts max_aux_agents)

/-- Rust `is_code_editing_tool` from `tool_catalog.rs`. -/
def is_code_editing_tool (name : String) : Bool :=
  CODE_EDITING_TOOL_NAMES.contains name

/-! Tool-call dispatch and results, from `src/message_processor.rs`. -/

/-- A content block of a `CallToolResult`.  The code only ever produces
`TextContent` blocks whose `type` field is the constant string `text` and
whose annotation slot is empty, so the block is modelled by its text. -/
inductive ContentBlock where
  | text (s : String)
deriving DecidableEq, Repr

/-- Rust `mcp_types::CallToolResult`. -/
structure CallToolResult where
  content : List ContentBlock
  is_error : Option Bool
  structured_content : Option Json

/-- Outcome of the `handle_call_tool` dispatch in `message_processor.rs`.
The first three constructors are the dedicated handlers for the built-in
tool names; `extendedCall` is the hand-off to `handle_extended_tool_call`;
`responseFrame` is a JSON-RPC response frame carrying a `CallToolResult`;
`errorFrameOut` (a JSON-RPC error frame) is part of the codomain but is
never produced by this dispatch. -/
inductive CallToolDispatch where
  | replyTool
  | codexTool
  | codexReplyTool
  | extendedCall (name : String)
  | responseFrame (result : CallToolResult)
  | errorFrameOut (err : RpcError)

/-- Rust `handle_call_tool` from `message_processor.rs`: dispatch on the tool
name.  Mirrors the `match name.as_str()` arms, including the two guarded
arms (`is_code_editing_tool`, then `expose_all_tools`) and the unknown-tool
fallback, which replies with a *successful* response frame whose
`CallToolResult` has `is_error = Some(true)`. -/
def handle_call_tool (expose_all_tools : Bool) (name : String) : CallToolDispatch :=
  if name = "reply" then CallToolDispatch.replyTool
  else if name = "codex" then CallToolDispatch.codexTool
  else if name = "codex-reply" then CallToolDispatch.codexReplyTool
  else if is_code_editing_tool name then CallToolDispatch.extendedCall name
  else if expose_all_tools then CallToolDispatch.extendedCall name
  else
    CallToolDispatch.responseFrame
      { content := [ContentBlock.text ("Unknown tool " ++ squote ++ name ++ squote)]
      , is_error := some true
      , structured_content := none }

/-! Initialize handling, from `src/message_processor.rs`. -/

/-- Rust `mcp_types::InitializeResult` restricted to the fields the code
sets: the tools capability (`list_changed`), the echoed protocol version,
and the server identification. -/
structure InitializeResult where
  tools_list_changed : Option Bool
  protocol_version : String
  server_name : String
  server_title : Option String
deriving DecidableEq, Repr

/-- State of the message processor relevant to the `initialize` method: the
`initialized` flag, and the recorded client user-agent suffix (the global
`USER_AGENT_SUFFIX`). -/
structure ProcState where
  initialized : Bool
  user_agent_suffix : Option String
deriving DecidableEq, Repr

/-- A frame emitted in reply to an `initialize` request: either a success
response or a JSON-RPC error frame. -/
inductive InitOutcome where
  | response (r : InitializeResult)
  | errorFrame (e : RpcError)
deriving DecidableEq, Repr

/-- Rust `handle_initialize` from `message_processor.rs`: if already
initialized, send a JSON-RPC error with the InvalidRequest code and leave
the state untouched; otherwise record the client name/version as the
user-agent suffix, set `initialized`, and respond with the capabilities. -/
def handle_initialize_request (st : ProcState)
    (protocolVersion clientName clientVersion : String) : ProcState × InitOutcome :=
  if st.initialized then
    (st, InitOutcome.errorFrame ⟨ErrCode.invalidRequest, "initialize called more than once"⟩)
  else
    ({ initialized := true
     , user_agent_suffix := some (clientName ++ "; " ++ clientVersion) },
     InitOutcome.response
       { tools_list_changed := some true
       , protocol_version := protocolVersion
       , server_name := "codex-mcp-server"
       , server_title := some "Codex" })

/-- Process a sequence of `initialize` requests (protocol version, client
name, client version) through the processor state, collecting the reply
frames in order. -/
def run_initializes (st : ProcState) :
    List (String × String × String) → ProcState × List InitOutcome
  | [] => (st, [])
  | c :: cs =>
    let step := handle_initialize_request st c.1 c.2.1 c.2.2
    let rest := run_initializes step.1 cs
    (rest.1, step.2 :: rest.2)

/-- Test whether an initialize reply frame is a success response. -/
def isInitSuccess : InitOutcome → Bool
  | InitOutcome.response _ => true
  | InitOutcome.errorFrame _ => false

/-! Submission operations and the conversation engine, from
`src/codex_message_processor.rs`.  The engine is an external collaborator;
the core only calls `submit`, whose outcome is modelled as an oracle. -/

/-- Rust `ReviewDecision` from the engine protocol. -/
inductive ReviewDecision where
  | approved
  | approvedForSession
  | denied
  | abort
deriving DecidableEq, Repr

/-- Wire-form input items (`WireInputItem`). -/
inductive WireInputItem where
  | text (text : String)
  | image (image_url : String)
  | localImage (path : String)
deriving DecidableEq, Repr

/-- Engine-form input items (`CoreInputItem`). -/
inductive CoreInputItem where
  | text (text : String)
  | image (image_url : String)
  | localImage (path : String)
deriving DecidableEq, Repr

/-- The 1-for-1 wire-to-engine mapping performed inside
`send_user_message_internal` and `send_user_turn_internal`. -/
def map_wire_item : WireInputItem → CoreInputItem
  | WireInputItem.text t => CoreInputItem.text t
  | WireInputItem.image u => CoreInputItem.image u
  | WireInputItem.localImage p => CoreInputItem.localImage p

/-- Engine submission operations (`Op`).  The turn-configuration payloads
(cwd, approval policy, sandbox policy, model, effort, summary) are opaque
pass-through values, modelled as strings. -/
inductive Op where
  | userInput (items : List CoreInputItem)
  | userTurn (items : List CoreInputItem) (cwd approval_policy sandbox_policy : String)
      (model effort summary : String)
  | interrupt
  | shutdown
  | patchApproval (id : String) (decision : ReviewDecision)
  | execApproval (id : String) (decision : ReviewDecision)
deriving DecidableEq, Repr

/-- The conversation engine handle, reduced to its `submit` capability.  The
outcome of each submission is an oracle so that theorems quantify over
engines that accept and engines that fail. -/
structure ConvEngine where
  submitResult : Op → Except String Unit

/-- Empty response payload of `sendUserMessage`. -/
structure SendUserMessageResponse where
deriving DecidableEq, Repr

/-- Empty response payload of `sendUserTurn`. -/
structure SendUserTurnResponse where
deriving DecidableEq, Repr

/-- Rust `send_user_message_internal` from `codex_message_processor.rs`.
`lookup` is the result of `conversation_manager.get_conversation`.  The
function returns the handler result together with the list of submissions
made to the engine.  Note the Rust code writes `let _ = conversation
.submit(..)`: the submission outcome is discarded. -/
def send_user_message_internal (lookup : Option ConvEngine)
    (conversation_id : ConversationId) (items : List WireInputItem) :
    Except RpcError SendUserMessageResponse × List Op :=
  match lookup with
  | none =>
    (Except.error ⟨ErrCode.invalidRequest, "conversation not found: " ++ conversation_id⟩, [])
  | some conv =>
    let mapped := items.map map_wire_item
    let _ := conv.submitResult (Op.userInput mapped)
    (Except.ok ⟨⟩, [Op.userInput mapped])

/-- Rust `send_user_turn_internal` from `codex_message_processor.rs`; as for
`send_user_message_internal`, the submission outcome is discarded. -/
def send_user_turn_internal (lookup : Option ConvEngine)
    (conversation_id : ConversationId) (items : List WireInputItem)
    (cwd approval_policy sandbox_policy model effort summary : String) :
    Except RpcError SendUserTurnResponse × List Op :=
  match lookup with
  | none =>
    (Except.error ⟨ErrCode.invalidRequest, "conversation not found: " ++ conversation_id⟩, [])
  | some conv =>
    let mapped := items.map map_wire_item
    let _ := conv.submitResult
      (Op.userTurn mapped cwd approval_policy sandbox_policy model effort summary)
    (Except.ok ⟨⟩, [Op.userTurn mapped cwd approval_policy sandbox_policy model effort summary])

/-! Pending interrupts and turn-aborted draining, from
`src/codex_message_processor.rs`. -/

/-- Rust `PendingInterrupt`: a buffered interrupt reply, tagged by whether it
came in as a JSON-RPC request or as a `tools/call`. -/
inductive PendingInterrupt where
  | jsonRpc (rid : RequestId)
  | tool (rid : RequestId)
deriving DecidableEq, Repr

/-- Rust `TurnAbortReason` value (external `codex_protocol` type), reduced to
the two renderings the code applies to it: the `Debug` formatting used in
the tool-result text, and the serde JSON value used in the structured
response. -/
structure AbortReason where
  debugRepr : String
  jsonRepr : Json

/-- Serialization of `InterruptConversationResponse { abort_reason }`. -/
def interrupt_response_json (reason : AbortReason) : Json :=
  Json.obj [("abort_reason", reason.jsonRepr)]

/-- Parameter payload of the server-initiated `applyPatchApproval` request
(`ApplyPatchApprovalParams`). -/
structure ApplyPatchApprovalParams where
  conversation_id : ConversationId
  call_id : String
  file_changes : Json
  reason : Option String
  grant_root : Option String

/-- Parameter payload of the server-initiated `execCommandApproval` request
(`ExecCommandApprovalParams`). -/
structure ExecCommandApprovalParams where
  conversation_id : ConversationId
  call_id : String
  command : List String
  cwd : String
  reason : Option String

/-- Typed payload of a server-initiated request frame. -/
inductive RequestPayload where
  | applyPatch (p : ApplyPatchApprovalParams)
  | execCommand (p : ExecCommandApprovalParams)

/-- Modelled from the spec: `APPLY_PATCH_APPROVAL_METHOD` is defined in the
external `codex_protocol::mcp_protocol` module (not among the provided
sources); the spec names this server-initiated request `applyPatchApproval`. -/
def APPLY_PATCH_APPROVAL_METHOD : String := "applyPatchApproval"

/-- Modelled from the spec: `EXEC_COMMAND_APPROVAL_METHOD` is defined in the
external `codex_protocol::mcp_protocol` module (not among the provided
sources); the spec names this server-initiated request `execCommandApproval`. -/
def EXEC_COMMAND_APPROVAL_METHOD : String := "execCommandApproval"

/-- Outbound frames the embedded handlers can emit.  `response` carries a
JSON result; `toolResponse` is also a response frame but carries a
`CallToolResult`; `errorFrame` is a JSON-RPC error frame; `request` is a
server-initiated request. -/
inductive OutFrame where
  | response (rid : RequestId) (result : Json)
  | toolResponse (rid : RequestId) (result : CallToolResult)
  | errorFrame (rid : RequestId) (err : RpcError)
  | notification (method : String) (params : Option Json)
  | request (method : String) (payload : RequestPayload)

/-- The `pending_interrupts` map, `HashMap<ConversationId, Vec<PendingInterrupt>>`,
modelled as a total function with list values (absent key = empty list). -/
abbrev PendingMap := ConversationId → List PendingInterrupt

/-- Rust `schedule_interrupt` from `codex_message_processor.rs`: look up the
conversation (unknown → InvalidRequest error), append the pending entry to
the per-conversation FIFO, then submit `Op::Interrupt` (outcome discarded).
No reply frame is sent on the success path; the returned pair is the
updated pending map and the submissions made. -/
def schedule_interrupt (lookup : Option ConvEngine) (pmap : PendingMap)
    (conversation_id : ConversationId) (pending : PendingInterrupt) :
    Except RpcError (PendingMap × List Op) :=
  match lookup with
  | none =>
    Except.error ⟨ErrCode.invalidRequest, "conversation not found: " ++ conversation_id⟩
  | some conv =>
    let pmap' := fun c => if c = conversation_id then pmap c ++ [pending] else pmap c
    let _ := conv.submitResult Op.interrupt
    Except.ok (pmap', [Op.interrupt])

/-- Rust `interrupt_conversation` from `codex_message_processor.rs`: schedule
a `JsonRpc`-tagged pending interrupt; only on scheduling failure is a frame
(an error frame) sent back immediately. -/
def interrupt_conversation (lookup : Option ConvEngine) (pmap : PendingMap)
    (request_id : RequestId) (conversation_id : ConversationId) :
    List OutFrame × PendingMap × List Op :=
  match schedule_interrupt lookup pmap conversation_id (PendingInterrupt.jsonRpc request_id) with
  | Except.error err => ([OutFrame.errorFrame request_id err], pmap, [])
  | Except.ok (pmap', ops) => ([], pmap', ops)

/-- The reply frame built for one drained pending interrupt in the
`TurnAborted` arm of `apply_bespoke_event_handling`: `JsonRpc` entries get a
response whose result is the serialized `InterruptConversationResponse`;
`Tool` entries get a `CallToolResult` whose text renders the abort reason
with `Debug` formatting and whose structured content is the same serialized
response. -/
def turn_aborted_frame (reason : AbortReason) : PendingInterrupt → OutFrame
  | PendingInterrupt.jsonRpc rid => OutFrame.response rid (interrupt_response_json reason)
  | PendingInterrupt.tool rid =>
    OutFrame.toolResponse rid
      { content :=
          [ContentBlock.text ("Conversation interrupted with reason: " ++ reason.debugRepr)]
      , is_error := none
      , structured_content := some (interrupt_response_json reason) }

/-- The `TurnAborted` arm of `apply_bespoke_event_handling`: remove the
pending list for the conversation from the map and reply to every entry in
order. -/
def handle_turn_aborted (pmap : PendingMap) (conversation_id : ConversationId)
    (reason : AbortReason) : PendingMap × List OutFrame :=
  let pending := pmap conversation_id
  let pmap' := fun c => if c = conversation_id then [] else pmap c
  (pmap', if pending.isEmpty then [] else pending.map (turn_aborted_frame reason))

/-! Approval coordination, from `src/codex_message_processor.rs`. -/

/-- The outcome of awaiting the client reply to a server-initiated approval
request, at the granularity the code distinguishes: the oneshot receiver
yields a value that deserializes to a decision; it yields a value that fails
to deserialize; or the receiver itself fails (channel dropped). -/
inductive ApprovalReply where
  | reply (decision : ReviewDecision)
  | malformed
  | channelFailed
deriving DecidableEq, Repr

/-- Rust `on_patch_approval_response` from `codex_message_processor.rs`,
as the list of submissions made to the engine.  On receiver failure the code
submits `PatchApproval` with decision `Denied`; on deserialization failure
it falls back to `Denied`; otherwise it submits the client decision. -/
def on_patch_approval_response (event_id : String) (r : ApprovalReply) : List Op :=
  match r with
  | ApprovalReply.channelFailed => [Op.patchApproval event_id ReviewDecision.denied]
  | ApprovalReply.malformed => [Op.patchApproval event_id ReviewDecision.denied]
  | ApprovalReply.reply d => [Op.patchApproval event_id d]

/-- Rust `on_exec_approval_response` from `codex_message_processor.rs`.  On
receiver failure the code logs and returns without submitting anything; on
deserialization failure it falls back to `Denied`; otherwise it submits the
client decision. -/
def on_exec_approval_response (event_id : String) (r : ApprovalReply) : List Op :=
  match r with
  | ApprovalReply.channelFailed => []
  | ApprovalReply.malformed => [Op.execApproval event_id ReviewDecision.denied]
  | ApprovalReply.reply d => [Op.execApproval event_id d]

/-- Event payloads (`EventMsg`) restricted to the variants
`apply_bespoke_event_handling` reacts to, plus an opaque remainder. -/
inductive EventMsg where
  | applyPatchApprovalRequest (call_id : String) (changes : Json)
      (reason : Option String) (grant_root : Option String)
  | execApprovalRequest (call_id : String) (command : List String) (cwd : String)
      (reason : Option String)
  | turnAborted (reason : AbortReason)
  | otherEvent (tag : String)

/-- An engine event: submission id plus payload. -/
structure Event where
  id : String
  msg : EventMsg

/-- Rust `apply_bespoke_event_handling` from `codex_message_processor.rs`:
returns the updated pending-interrupt map, the frames emitted synchronously
(the single server-initiated approval request, or the drained interrupt
replies), and the continuation run by the detached reply task (which
submissions it makes for each possible client-reply outcome). -/
def apply_bespoke_event_handling (ev : Event) (conversation_id : ConversationId)
    (pmap : PendingMap) : PendingMap × List OutFrame × (ApprovalReply → List Op) :=
  match ev.msg with
  | EventMsg.applyPatchApprovalRequest call_id changes reason grant_root =>
    (pmap,
     [OutFrame.request APPLY_PATCH_APPROVAL_METHOD
        (RequestPayload.applyPatch ⟨conversation_id, call_id, changes, reason, grant_root⟩)],
     fun r => on_patch_approval_response ev.id r)
  | EventMsg.execApprovalRequest call_id command cwd reason =>
    (pmap,
     [OutFrame.request EXEC_COMMAND_APPROVAL_METHOD
        (RequestPayload.execCommand ⟨conversation_id, call_id, command, cwd, reason⟩)],
     fun r => on_exec_approval_response ev.id r)
  | EventMsg.turnAborted reason =>
    let drained := handle_turn_aborted pmap conversation_id reason
    (drained.1, drained.2, fun _ => [])
  | EventMsg.otherEvent _ => (pmap, [], fun _ => [])

/-! Archive validation, from `src/codex_message_processor.rs`. -/

/-- Filesystem paths, modelled as component lists; `Path::starts_with` is
component-wise and `file_name` is the last component. -/
abbrev FsPath := List String

/-- Rendering of a path for error messages (`Display` of the path). -/
def path_display (p : FsPath) : String := String.intercalate "/" p

/-- Rust `str::ends_with`, via the character lists underlying the strings (a
byte-level suffix of valid UTF-8 coincides with a character-level suffix). -/
def str_ends_with (s suffix : String) : Bool := suffix.data.isSuffixOf s.data

/-- The validation half of `archive_conversation_internal`: `canonical` is
the result of `tokio::fs::canonicalize(&rollout_path)` (`none` = error).
The code accepts only when the canonical path starts with the sessions
folder, has a file name, and that file name *ends with*
`{conversation_id}.jsonl`; on success it returns the canonical path and
file name that the later rename uses. -/
def archive_validate (canonical : Option FsPath) (rollout_folder : FsPath)
    (conversation_id : ConversationId) (rollout_path : FsPath) :
    Except RpcError (FsPath × String) :=
  match canonical with
  | some p =>
    if rollout_folder.isPrefixOf p then
      match p.getLast? with
      | none =>
        Except.error ⟨ErrCode.invalidRequest,
          "rollout path `" ++ path_display rollout_path ++ "` missing file name"⟩
      | some file_name =>
        if str_ends_with file_name (conversation_id ++ ".jsonl") then
          Except.ok (p, file_name)
        else
          Except.error ⟨ErrCode.invalidRequest,
            "rollout path `" ++ path_display rollout_path
              ++ "` does not match conversation id " ++ conversation_id⟩
    else
      Except.error ⟨ErrCode.invalidRequest,
        "rollout path `" ++ path_display rollout_path ++ "` must be in sessions directory"⟩
  | none =>
    Except.error ⟨ErrCode.invalidRequest,
      "rollout path `" ++ path_display rollout_path ++ "` must be in sessions directory"⟩

/-- A performed `tokio::fs::rename`. -/
structure MoveOp where
  src : FsPath
  dest : FsPath
deriving DecidableEq, Repr

/-- Rust `archive_conversation_internal` from `codex_message_processor.rs`,
as (result, renames performed).  Between validation and the rename the code
shuts the live conversation down (bounded by 10 seconds); that interaction
moves no file and does not affect the result, so it is not modelled.
`renameResult` is the oracle for the `tokio::fs::rename` call. -/
def archive_conversation_internal (canonical : Option FsPath)
    (rollout_folder archive_folder : FsPath) (conversation_id : ConversationId)
    (rollout_path : FsPath) (renameResult : Except String Unit) :
    Except RpcError Unit × List MoveOp :=
  match archive_validate canonical rollout_folder conversation_id rollout_path with
  | Except.error e => (Except.error e, [])
  | Except.ok pf =>
    match renameResult with
    | Except.ok _ => (Except.ok (), [⟨pf.1, archive_folder ++ [pf.2]⟩])
    | Except.error err =>
      (Except.error ⟨ErrCode.internalError, "failed to archive conversation: " ++ err⟩, [])

/-! Auxiliary-agent pool, from `src/aux_agents.rs`. -/

/-- State of the pool: the cap and the key set of the `agents` map (agent ids
are minted UUIDs, modelled as naturals). -/
structure AuxAgentsState where
  max_agents : Nat
  agents : List Nat
deriving DecidableEq, Repr

/-- Rust `spawn_agent` from `aux_agents.rs`: when the map already holds
`max_agents` or more entries, fail with the fixed message; otherwise launch
the child (`command.spawn()`, whose outcome is the `spawnResult` oracle —
on launch failure the error propagates via `?` and nothing is recorded),
mint `fresh_id`, and record it in the map. -/
def spawn_agent (st : AuxAgentsState) (fresh_id : Nat)
    (spawnResult : Except String Unit) : Except String AuxAgentsState :=
  if st.agents.length ≥ st.max_agents then
    Except.error "maximum number of auxiliary agents reached"
  else
    match spawnResult with
    | Except.error e => Except.error e
    | Except.ok _ => Except.ok { st with agents := fresh_id :: st.agents }

/-! Conversation-summary preview extraction, from
`src/codex_message_processor.rs`.  Strings are modelled as `List Char` here
because the extraction searches for a substring and trims whitespace. -/

/-- Rust `str::find` for a fixed pattern: index of the first occurrence of
`pat` in the text, scanning left to right (the empty pattern occurs at 0). -/
def findSub (pat : List Char) : List Char → Option Nat
  | [] => if pat.isEmpty then some 0 else none
  | x :: xs =>
    if pat.isPrefixOf (x :: xs) then some 0
    else (findSub pat xs).map (· + 1)

/-- Rust `str::trim`: drop whitespace from both ends. -/
def trimChars (xs : List Char) : List Char :=
  ((xs.dropWhile Char.isWhitespace).reverse.dropWhile Char.isWhitespace).reverse

/-- The preview transformation at the end of `extract_conversation_summary`:
if the marker occurs in the text, keep what follows its first occurrence
and trim it; otherwise keep the whole text.  The marker
(`USER_MESSAGE_BEGIN`, an external `codex_protocol` constant) is a
parameter. -/
def preview_after_marker (marker text : List Char) : List Char :=
  match findSub marker text with
  | some idx => trimChars (text.drop (idx + marker.length))
  | none => text

/-- A content item of a rollout head entry.  Whether an `input_text` item is
a *plain* user message is computed by external `codex_protocol` code
(`InputMessageKind::from(("user", text))`), modelled by the `plain` flag. -/
inductive SummaryContentItem where
  | inputText (plain : Bool) (text : List Char)
  | otherContent

/-- A rollout head entry as `extract_conversation_summary` sees it: a
message (with its content items) or anything else. -/
inductive SummaryHeadItem where
  | message (content : List SummaryContentItem)
  | otherItem

/-- The search inside `extract_conversation_summary`: the first text of an
`input_text` content item of plain kind, scanning messages in order. -/
def find_plain_user_text (head : List SummaryHeadItem) : Option (List Char) :=
  head.findSome? fun item =>
    match item with
    | SummaryHeadItem.message content =>
      content.findSome? fun c =>
        match c with
        | SummaryContentItem.inputText true t => some t
        | _ => none
    | SummaryHeadItem.otherItem => none

/-- The preview field computed by `extract_conversation_summary` (absent
when no plain user message exists, in which case the whole summary is
`None`). -/
def extract_summary_preview (marker : List Char) (head : List SummaryHeadItem) :
    Option (List Char) :=
  (find_plain_user_text head).map (preview_after_marker marker)

/-- The descriptor list `list_tools` produces for the default options
(`expose_all_tools = false`), spelled out for the default-catalog theorem. -/
def DEFAULT_TOOLS : List Tool :=
  [ create_reply_tool
  , create_tool_for_codex_tool_call_param
  , create_tool_for_codex_tool_call_reply_param
  , build_simple_tool "codex.newConversation" "Start a new Codex conversation."
  , build_simple_tool "codex.sendUserMessage"
      "Send user message input to an active Codex conversation."
  , build_simple_tool "codex.sendUserTurn"
      "Submit a full user turn (message plus overrides) to an active Codex conversation."
  , build_simple_tool "codex.execCommand"
      ("Execute a one-off shell command using Codex" ++ squote ++ "s sandbox policy.")
  , build_simple_tool "codex.gitDiffToRemote"
      "Return the diff between the working tree and its remote for a given directory." ]

/-! Shared helper lemmas. -/

/-- Processing any sequence of initialize requests from an
already-initialized state yields no success frame and keeps the flag set. -/
theorem run_initializes_initialized (calls : List (String × String × String)) :
    ∀ st : ProcState, st.initialized = true →
      (run_initializes st calls).2.countP isInitSuccess = 0 ∧
      (run_initializes st calls).1.initialized = true := by
  induction calls with
  | nil => intro st h; exact ⟨rfl, h⟩
  | cons c cs ih =>
    intro st h
    have hstep : handle_initialize_request st c.1 c.2.1 c.2.2 =
        (st, InitOutcome.errorFrame
          ⟨ErrCode.invalidRequest, "initialize called more than once"⟩) := by
      simp [handle_initialize_request, h]
    have hrest := ih st h
    simp [run_initializes, hstep, List.countP_cons, isInitSuccess, hrest.1, hrest.2]

/-- C3: the initialize method succeeds exactly once: the first call from an
uninitialized state flips the flag and responds with the capabilities; a
call from an initialized state yields a JSON-RPC error with the
InvalidRequest code and leaves the flag set; over any sequence of calls
from the fresh state, the number of success responses is `min n 1`. -/
theorem initialize_succeeds_exactly_once :
    ∀ (st : ProcState) (p n v : String),
      (st.initialized = false →
        handle_initialize_request st p n v =
          ({ initialized := true, user_agent_suffix := some (n ++ "; " ++ v) },
           InitOutcome.response
             { tools_list_changed := some true
             , protocol_version := p
             , server_name := "codex-mcp-server"
             , server_title := some "Codex" })) ∧
      (st.initialized = true →
        handle_initialize_request st p n v =
          (st, InitOutcome.errorFrame
            ⟨ErrCode.invalidRequest, "initialize called more than once"⟩) ∧
        (handle_initialize_request st p n v).1.initialized = true) ∧
      (∀ calls : List (String × String × String),
        (run_initializes ⟨false, none⟩ calls).2.countP isInitSuccess =
          min calls.length 1) := by
  intro st p n v
  refine ⟨?_, ?_, ?_⟩
  · intro h
    simp [handle_initialize_request, h]
  · intro h
    constructor
    · simp [handle_initialize_request, h]
    · simp [handle_initialize_request, h]
  · intro calls
    cases calls with
    | nil => rfl
    | cons c cs =>
      have hstep : handle_initialize_request ⟨false, none⟩ c.1 c.2.1 c.2.2 =
          ({ initialized := true, user_agent_suffix := some (c.2.1 ++ "; " ++ c.2.2) },
           InitOutcome.response
             { tools_list_changed := some true
             , protocol_version := c.1
             , server_name := "codex-mcp-server"
             , server_title := some "Codex" }) := by
        simp [handle_initialize_request]
      have hrest := run_initializes_initialized cs
        { initialized := true, user_agent_suffix := some (c.2.1 ++ "; " ++ c.2.2) } rfl
      simp [run_initializes, hstep, List.countP_cons, isInitSuccess, hrest.1]

/-- Witness for C3 at a concrete input. -/
theorem initialize_succeeds_exactly_once_witness :
    handle_initialize_request ⟨false, none⟩ "2025-03-26" "test" "0.1" =
      ({ initialized := true, user_agent_suffix := some ("test" ++ "; " ++ "0.1") },
       InitOutcome.response
         { tools_list_changed := some true
         , protocol_version := "2025-03-26"
         , server_name := "codex-mcp-server"
         , server_title := some "Codex" }) :=
  (initialize_succeeds_exactly_once ⟨false, none⟩ "2025-03-26" "test" "0.1").1 rfl

/-- C9: for known conversations, `send_user_message_internal` and
`send_user_turn_internal` return the success response for every possible
engine-submission outcome (the submit result is discarded), including
engines whose every submission fails; only an unknown conversation yields
an error. -/
theorem send_submit_result_discarded :
    (∀ (conv : ConvEngine) (cid : ConversationId) (items : List WireInputItem),
       (send_user_message_internal (some conv) cid items).1 = Except.ok ⟨⟩) ∧
    (∀ (conv : ConvEngine) (cid : ConversationId) (items : List WireInputItem)
       (cwd ap sp model eff summ : String),
       (send_user_turn_internal (some conv) cid items cwd ap sp model eff summ).1 =
         Except.ok ⟨⟩) ∧
    (∀ (failure : String) (cid : ConversationId) (items : List WireInputItem),
       (send_user_message_internal (some ⟨fun _ => Except.error failure⟩) cid items).1 =
         Except.ok ⟨⟩ ∧
       (send_user_turn_internal (some ⟨fun _ => Except.error failure⟩) cid items
          "" "" "" "" "" "").1 = Except.ok ⟨⟩) ∧
    (∀ (cid : ConversationId) (items : List WireInputItem),
       (send_user_message_internal none cid items).1 =
         Except.error ⟨ErrCode.invalidRequest, "conversation not found: " ++ cid⟩) :=
  ⟨fun _ _ _ => rfl, fun _ _ _ _ _ _ _ _ _ => rfl, fun _ _ _ => ⟨rfl, rfl⟩, fun _ _ => rfl⟩

/-- C10: a tools/call whose name is none of the three built-in handlers, is
not in the code-editing allowlist, and arrives while `expose_all_tools` is
false, is answered with a *response* frame carrying a `CallToolResult` with
`is_error = Some(true)` and the `Unknown tool` text — never an error frame;
and a name outside the allowlist reaches the extended handlers only when
`expose_all_tools` is true. -/
theorem unknown_tool_result_frame :
    (∀ name : String, name ≠ "reply" → name ≠ "codex" → name ≠ "codex-reply" →
       is_code_editing_tool name = false →
       handle_call_tool false name =
         CallToolDispatch.responseFrame
           { content := [ContentBlock.text ("Unknown tool " ++ squote ++ name ++ squote)]
           , is_error := some true
           , structured_content := none }) ∧
    (∀ (e : Bool) (name : String), is_code_editing_tool name = false →
       handle_call_tool e name = CallToolDispatch.extendedCall name → e = true) := by
  constructor
  · intro name h1 h2 h3 h4
    simp [handle_call_tool, h1, h2, h3, h4]
  · intro e name hname heq
    cases e with
    | true => rfl
    | false =>
      exfalso
      by_cases h1 : name = "reply"
      · simp [handle_call_tool, h1] at heq
      by_cases h2 : name = "codex"
      · simp [handle_call_tool, h1, h2] at heq
      by_cases h3 : name = "codex-reply"
      · simp [handle_call_tool, h1, h2, h3] at heq
      simp [handle_call_tool, h1, h2, h3, hname] at heq

/-- Witness for C10 at a concrete input: an administrative tool name with
`expose_all_tools` off gets the unknown-tool result frame. -/
theorem unknown_tool_result_frame_witness :
    handle_call_tool false "codex.listConversations" =
      CallToolDispatch.responseFrame
        { content := [ContentBlock.text
            ("Unknown tool " ++ squote ++ "codex.listConversations" ++ squote)]
        , is_error := some true
        , structured_content := none } :=
  unknown_tool_result_frame.1 "codex.listConversations"
    (by decide) (by decide) (by decide) (by decide)

/-- Counterexample for C5 as stated: with `expose_all_tools = false` and
`max_aux_agents = 1`, the computed tool list does not contain the
auxiliary-agent tools. -/
theorem aux_tools_hidden_without_expose_all :
    (some 1 : Option Nat).getD 0 ≥ 1 ∧
    "codex.spawnAuxAgent" ∉ compute_tool_names ⟨false, []⟩ (some 1) := by
  decide

/-- C5 (amended): the auxiliary-agent set is present exactly under
`expose_all_tools = true` together with `max_aux_agents ≥ 1`. -/
theorem aux_tools_require_expose_and_cap :
    ∀ (opts : McpServerOpts) (m : Option Nat),
      opts.expose_all_tools = true → 1 ≤ m.getD 0 →
      "codex.spawnAuxAgent" ∈ compute_tool_names opts m ∧
      "codex.stopAuxAgent" ∈ compute_tool_names opts m ∧
      "codex.listAuxAgents" ∈ compute_tool_names opts m := by
  intro opts m hexpose hcap
  have hpos : m.getD 0 > 0 := hcap
  refine ⟨?_, ?_, ?_⟩ <;>
    · simp only [compute_tool_names, hexpose, if_true, if_pos hpos]
      decide

/-- Witness for amended C5 at a concrete input. -/
theorem aux_tools_require_expose_and_cap_witness :
    "codex.spawnAuxAgent" ∈ compute_tool_names ⟨true, []⟩ (some 1) ∧
    "codex.stopAuxAgent" ∈ compute_tool_names ⟨true, []⟩ (some 1) ∧
    "codex.listAuxAgents" ∈ compute_tool_names ⟨true, []⟩ (some 1) :=
  aux_tools_require_expose_and_cap ⟨true, []⟩ (some 1) rfl (by decide)

/-- Counterexample for C7 as stated: with room in the pool (0 < 1) but a
failing child launch, `spawn_agent` returns the launch error and inserts no
entry, so "otherwise inserts exactly one new entry" does not hold
unconditionally. -/
theorem spawn_launch_failure_inserts_nothing :
    (0 : Nat) < 1 ∧
    spawn_agent ⟨1, []⟩ 7 (Except.error "spawn failed") = Except.error "spawn failed" :=
  ⟨by decide, rfl⟩

/-- C7 (amended): `spawn_agent` fails with the fixed message whenever the
map holds `max_agents` or more entries; below the cap, a successful launch
inserts exactly one new entry and a failed launch inserts nothing and
surfaces the launch error; every successful result respects the cap. -/
theorem spawn_agent_cap_invariant :
    ∀ (st : AuxAgentsState) (fresh : Nat) (r : Except String Unit),
      (st.max_agents ≤ st.agents.length →
        spawn_agent st fresh r =
          Except.error "maximum number of auxiliary agents reached") ∧
      (st.agents.length < st.max_agents →
        spawn_agent st fresh (Except.ok ()) =
          Except.ok { st with agents := fresh :: st.agents }) ∧
      (∀ e : String, st.agents.length < st.max_agents →
        spawn_agent st fresh (Except.error e) = Except.error e) ∧
      (∀ st' : AuxAgentsState, st.agents.length ≤ st.max_agents →
        spawn_agent st fresh r = Except.ok st' →
        st'.agents = fresh :: st.agents ∧ st'.agents.length ≤ st.max_agents) := by
  intro st fresh r
  refine ⟨?_, ?_, ?_, ?_⟩
  · intro h
    simp [spawn_agent, h]
  · intro h
    have hn : ¬ st.agents.length ≥ st.max_agents := by omega
    simp [spawn_agent, hn]
  · intro e h
    have hn : ¬ st.agents.length ≥ st.max_agents := by omega
    simp [spawn_agent, hn]
  · intro st' hle hok
    by_cases hfull : st.agents.length ≥ st.max_agents
    · simp [spawn_agent, hfull] at hok
    · cases r with
      | error e => simp [spawn_agent, hfull] at hok
      | ok u =>
        simp [spawn_agent, hfull] at hok
        have hlen : st.agents.length < st.max_agents := by omega
        constructor
        · rw [← hok]
        · rw [← hok]
          simpa using hlen

/-- Witness for amended C7 at a concrete input: a full pool rejects the
spawn with the fixed message. -/
theorem spawn_agent_cap_invariant_witness :
    spawn_agent ⟨1, [5]⟩ 7 (Except.ok ()) =
      Except.error "maximum number of auxiliary agents reached" :=
  (spawn_agent_cap_invariant ⟨1, [5]⟩ 7 (Except.ok ())).1 (by decide)

/-- Counterexample for C1 as stated: on a reply-channel failure the exec
path submits nothing at all — in particular no `ExecApproval` with decision
`Denied`. -/
theorem exec_channel_failure_submits_nothing :
    on_exec_approval_response "call-1" ApprovalReply.channelFailed = [] ∧
    Op.execApproval "call-1" ReviewDecision.denied ∉
      on_exec_approval_response "call-1" ApprovalReply.channelFailed := by
  decide

/-- C1 (amended): each approval-request event issues exactly one
server-initiated request of the matching method, and the detached reply
task submits exactly one approval whose decision equals the client reply
decision, defaulting to `Denied` when the reply fails to deserialize; on a
reply-channel failure the patch path submits `PatchApproval` with decision
`Denied` while the exec path submits nothing. -/
theorem approval_request_coordination :
    (∀ (ev : Event) (cid : ConversationId) (pmap : PendingMap)
       (call_id : String) (changes : Json) (reason grant_root : Option String),
       ev.msg = EventMsg.applyPatchApprovalRequest call_id changes reason grant_root →
       (apply_bespoke_event_handling ev cid pmap).1 = pmap ∧
       (apply_bespoke_event_handling ev cid pmap).2.1 =
         [OutFrame.request APPLY_PATCH_APPROVAL_METHOD
            (RequestPayload.applyPatch ⟨cid, call_id, changes, reason, grant_root⟩)] ∧
       (∀ d, (apply_bespoke_event_handling ev cid pmap).2.2 (ApprovalReply.reply d) =
          [Op.patchApproval ev.id d]) ∧
       (apply_bespoke_event_handling ev cid pmap).2.2 ApprovalReply.malformed =
         [Op.patchApproval ev.id ReviewDecision.denied] ∧
       (apply_bespoke_event_handling ev cid pmap).2.2 ApprovalReply.channelFailed =
         [Op.patchApproval ev.id ReviewDecision.denied]) ∧
    (∀ (ev : Event) (cid : ConversationId) (pmap : PendingMap)
       (call_id : String) (command : List String) (cwd : String) (reason : Option String),
       ev.msg = EventMsg.execApprovalRequest call_id command cwd reason →
       (apply_bespoke_event_handling ev cid pmap).1 = pmap ∧
       (apply_bespoke_event_handling ev cid pmap).2.1 =
         [OutFrame.request EXEC_COMMAND_APPROVAL_METHOD
            (RequestPayload.execCommand ⟨cid, call_id, command, cwd, reason⟩)] ∧
       (∀ d, (apply_bespoke_event_handling ev cid pmap).2.2 (ApprovalReply.reply d) =
          [Op.execApproval ev.id d]) ∧
       (apply_bespoke_event_handling ev cid pmap).2.2 ApprovalReply.malformed =
         [Op.execApproval ev.id ReviewDecision.denied] ∧
       (apply_bespoke_event_handling ev cid pmap).2.2 ApprovalReply.channelFailed = []) := by
  constructor
  · rintro ⟨eid, msg⟩ cid pmap call_id changes reason grant_root hmsg
    cases hmsg
    exact ⟨rfl, rfl, fun d => rfl, rfl, rfl⟩
  · rintro ⟨eid, msg⟩ cid pmap call_id command cwd reason hmsg
    cases hmsg
    exact ⟨rfl, rfl, fun d => rfl, rfl, rfl⟩

/-- Witness for amended C1 at a concrete input: a denied client reply to an
exec approval request is forwarded as `ExecApproval` with decision
`Denied`. -/
theorem approval_request_coordination_witness :
    (apply_bespoke_event_handling
        ⟨"e1", EventMsg.execApprovalRequest "X" ["rm", "-rf", "/"] "/" none⟩
        "c1" (fun _ => [])).2.2 (ApprovalReply.reply ReviewDecision.denied) =
      [Op.execApproval "e1" ReviewDecision.denied] :=
  (approval_request_coordination.2
    ⟨"e1", EventMsg.execApprovalRequest "X" ["rm", "-rf", "/"] "/" none⟩
    "c1" (fun _ => []) "X" ["rm", "-rf", "/"] "/" none rfl).2.2.1 ReviewDecision.denied

/-- C2: a successful interrupt request sends no frame when handled — it
appends a pending entry and submits `Op::Interrupt` — and a `TurnAborted`
event drains every pending interrupt of that conversation, answering
`JsonRpc` entries with a response whose result is the serialized
`{abort_reason}` object and `Tool` entries with a `CallToolResult` whose
text renders the reason and whose structured content is the same object. -/
theorem interrupt_reply_correlation :
    (∀ (conv : ConvEngine) (pmap : PendingMap) (rid : RequestId) (cid : ConversationId),
       (interrupt_conversation (some conv) pmap rid cid).1 = [] ∧
       (interrupt_conversation (some conv) pmap rid cid).2.1 cid =
         pmap cid ++ [PendingInterrupt.jsonRpc rid] ∧
       (interrupt_conversation (some conv) pmap rid cid).2.2 = [Op.interrupt]) ∧
    (∀ (pmap : PendingMap) (cid : ConversationId) (reason : AbortReason),
       (handle_turn_aborted pmap cid reason).1 cid = [] ∧
       (∀ c, c ≠ cid → (handle_turn_aborted pmap cid reason).1 c = pmap c) ∧
       (handle_turn_aborted pmap cid reason).2 =
         (pmap cid).map (turn_aborted_frame reason) ∧
       (∀ rid, PendingInterrupt.jsonRpc rid ∈ pmap cid →
          OutFrame.response rid (Json.obj [("abort_reason", reason.jsonRepr)]) ∈
            (handle_turn_aborted pmap cid reason).2) ∧
       (∀ rid, PendingInterrupt.tool rid ∈ pmap cid →
          OutFrame.toolResponse rid
            { content := [ContentBlock.text
                ("Conversation interrupted with reason: " ++ reason.debugRepr)]
            , is_error := none
            , structured_content := some (Json.obj [("abort_reason", reason.jsonRepr)]) } ∈
            (handle_turn_aborted pmap cid reason).2)) := by
  constructor
  · intro conv pmap rid cid
    refine ⟨rfl, ?_, rfl⟩
    simp [interrupt_conversation, schedule_interrupt]
  · intro pmap cid reason
    have hframes : (handle_turn_aborted pmap cid reason).2 =
        (pmap cid).map (turn_aborted_frame reason) := by
      cases hp : pmap cid with
      | nil => simp [handle_turn_aborted, hp]
      | cons a l => simp [handle_turn_aborted, hp]
    refine ⟨?_, ?_, hframes, ?_, ?_⟩
    · simp [handle_turn_aborted]
    · intro c hc
      simp [handle_turn_aborted, hc]
    · intro rid hmem
      rw [hframes]
      exact List.mem_map_of_mem (turn_aborted_frame reason) hmem
    · intro rid hmem
      rw [hframes]
      exact List.mem_map_of_mem (turn_aborted_frame reason) hmem

/-- Witness for C2 at a concrete input: a pending `JsonRpc(10)` interrupt is
answered by the response frame carrying the abort reason. -/
theorem interrupt_reply_correlation_witness :
    OutFrame.response (RequestId.int 10) (Json.obj [("abort_reason", Json.str "user_interrupt")]) ∈
      (handle_turn_aborted (fun _ => [PendingInterrupt.jsonRpc (RequestId.int 10)]) "c1"
        ⟨"Interrupted", Json.str "user_interrupt"⟩).2 :=
  (interrupt_reply_correlation.2 (fun _ => [PendingInterrupt.jsonRpc (RequestId.int 10)]) "c1"
    ⟨"Interrupted", Json.str "user_interrupt"⟩).2.2.2.1 (RequestId.int 10) (by simp)

/-- Counterexample for C4 as stated: the code only checks that the file name
*ends with* `{conversation_id}.jsonl`, so a canonical path inside the
sessions directory whose file name merely has that suffix (here
`x-c1.jsonl` for conversation `c1`) is accepted although the file name does
not equal `c1.jsonl`. -/
theorem archive_accepts_suffix_mismatch :
    archive_validate (some ["home", "u", ".codex", "sessions", "x-c1.jsonl"])
        ["home", "u", ".codex", "sessions"] "c1"
        ["home", "u", ".codex", "sessions", "x-c1.jsonl"] =
      Except.ok (["home", "u", ".codex", "sessions", "x-c1.jsonl"], "x-c1.jsonl") ∧
    ("x-c1.jsonl" : String) ≠ "c1" ++ ".jsonl" := by
  constructor
  · rfl
  · decide

/-- C4 (amended): archival is accepted iff the rollout path canonicalizes to
a path inside the sessions directory whose file name ends with
`{conversation_id}.jsonl`; every validation failure is an InvalidRequest
error, and whenever the operation returns an error no file is moved. -/
theorem archive_path_validation :
    (∀ (canonical : Option FsPath) (folder : FsPath) (cid : ConversationId) (rp : FsPath),
       (∃ p fn, archive_validate canonical folder cid rp = Except.ok (p, fn)) ↔
       (∃ p, canonical = some p ∧ folder <+: p ∧
          ∃ fn, p.getLast? = some fn ∧ str_ends_with fn (cid ++ ".jsonl") = true)) ∧
    (∀ (canonical : Option FsPath) (folder : FsPath) (cid : ConversationId) (rp : FsPath)
       (e : RpcError),
       archive_validate canonical folder cid rp = Except.error e →
       e.code = ErrCode.invalidRequest) ∧
    (∀ (canonical : Option FsPath) (folder archiveF : FsPath) (cid : ConversationId)
       (rp : FsPath) (rename : Except String Unit) (e : RpcError),
       (archive_conversation_internal canonical folder archiveF cid rp rename).1 =
         Except.error e →
       (archive_conversation_internal canonical folder archiveF cid rp rename).2 = []) := by
  refine ⟨?_, ?_, ?_⟩
  · intro canonical folder cid rp
    cases canonical with
    | none => simp [archive_validate]
    | some p =>
      by_cases hpre : folder.isPrefixOf p = true
      · cases hlast : p.getLast? with
        | none => simp [archive_validate, hpre, hlast]
        | some fn =>
          by_cases hsuf : str_ends_with fn (cid ++ ".jsonl") = true
          · simp only [archive_validate, hpre, hlast, hsuf, if_true]
            constructor
            · intro _
              exact ⟨p, rfl, by simpa using hpre, fn, hlast, hsuf⟩
            · intro _
              exact ⟨p, fn, rfl⟩
          · simp [archive_validate, hpre, hlast, hsuf]
      · simp [archive_validate, hpre]
        intro hcontra
        exact (hpre (by simpa using hcontra)).elim
  · intro canonical folder cid rp e h
    cases canonical with
    | none =>
      simp [archive_validate] at h
      simp [← h]
    | some p =>
      by_cases hpre : folder.isPrefixOf p = true
      · cases hlast : p.getLast? with
        | none =>
          simp [archive_validate, hpre, hlast] at h
          simp [← h]
        | some fn =>
          by_cases hsuf : str_ends_with fn (cid ++ ".jsonl") = true
          · simp [archive_validate, hpre, hlast, hsuf] at h
          · simp [archive_validate, hpre, hlast, hsuf] at h
            simp [← h]
      · simp [archive_validate, hpre] at h
        simp [← h]
  · intro canonical folder archiveF cid rp rename e h
    cases hv : archive_validate canonical folder cid rp with
    | error e2 => simp [archive_conversation_internal, hv]
    | ok pf =>
      cases rename with
      | ok u => simp [archive_conversation_internal, hv] at h
      | error msg => simp [archive_conversation_internal, hv]

/-- Witness for amended C4 at a concrete input: archiving a path outside the
sessions directory moves no file. -/
theorem archive_path_validation_witness :
    (archive_conversation_internal (some ["etc", "passwd"])
      ["home", "u", ".codex", "sessions"] ["home", "u", ".codex", "archived_sessions"]
      "c1" ["etc", "passwd"] (Except.ok ())).2 = [] :=
  archive_path_validation.2.2 (some ["etc", "passwd"])
    ["home", "u", ".codex", "sessions"] ["home", "u", ".codex", "archived_sessions"]
    "c1" ["etc", "passwd"] (Except.ok ())
    ⟨ErrCode.invalidRequest,
      "rollout path `" ++ path_display ["etc", "passwd"] ++ "` must be in sessions directory"⟩
    rfl

/-- Helper: a descriptor found via `find?` on a (name, description) table and
built with `build_simple_tool` carries the looked-up name. -/
theorem find_simple_name (l : List (String × String)) (name : String) (t : Tool)
    (h : ((l.find? fun q => q.1 = name).map fun q => build_simple_tool q.1 q.2) = some t) :
    t.name = name := by
  cases hf : l.find? fun q => q.1 = name with
  | none => rw [hf] at h; cases h
  | some q =>
    rw [hf] at h
    have hq : q.1 = name := by
      have := List.find?_some hf
      simpa using this
    have ht : t = build_simple_tool q.1 q.2 := by
      simpa using h.symm
    rw [ht, hq]
    rfl

/-- Helper: every descriptor `build_tool_by_name` yields carries the
requested name. -/
theorem build_tool_name (name : String) (m : Option Nat) (t : Tool)
    (h : build_tool_by_name name m = some t) : t.name = name := by
  unfold build_tool_by_name at h
  by_cases h1 : name = "reply"
  · simp [h1] at h
    rw [← h, h1]; rfl
  by_cases h2 : name = "codex"
  · simp [h1, h2] at h
    rw [← h, h2]; rfl
  by_cases h3 : name = "codex-reply"
  · simp [h1, h2, h3] at h
    rw [← h, h3]; rfl
  simp only [h1, h2, h3, if_false] at h
  cases ha : lookup_action_tool name with
  | some t1 =>
    rw [ha] at h
    simp [Option.orElse] at h
    rw [← h]
    exact find_simple_name CODE_EDITING_ACTIONS name t1 ha
  | none =>
    rw [ha] at h
    simp [Option.orElse] at h
    cases hb : lookup_admin_tool name with
    | some t2 =>
      rw [hb] at h
      simp [Option.orElse] at h
      rw [← h]
      exact find_simple_name ADMIN_ACTIONS name t2 hb
    | none =>
      rw [hb] at h
      simp [Option.orElse] at h
      unfold lookup_aux_tool at h
      by_cases hm : m.getD 0 = 0
      · simp [hm] at h
      · simp only [hm, if_false] at h
        exact find_simple_name AUX_TOOLS name t h

/-- Helper: when the catalog loop succeeds, the produced descriptors carry
exactly the walked names, in order. -/
theorem listToolsGo_names :
    ∀ (names : List String) (m : Option Nat) (seen : List String) (ts : List Tool),
      listToolsGo m seen names = Except.ok ts → ts.map Tool.name = names := by
  intro names
  induction names with
  | nil =>
    intro m seen ts h
    cases h
    rfl
  | cons name rest ih =>
    intro m seen ts h
    unfold listToolsGo at h
    by_cases hseen : name ∈ seen
    · simp [hseen] at h
    · simp only [hseen, if_false] at h
      cases hb : build_tool_by_name name m with
      | none => rw [hb] at h; cases h
      | some tool =>
        rw [hb] at h
        dsimp only at h
        cases hv : validate_tool_schema tool with
        | error e => rw [hv] at h; cases h
        | ok u =>
          rw [hv] at h
          dsimp only at h
          cases hrec : listToolsGo m (name :: seen) rest with
          | error e => rw [hrec] at h; cases h
          | ok ts2 =>
            rw [hrec] at h
            have hts : ts = tool :: ts2 := by
              simpa [Except.map] using h.symm
            rw [hts]
            simp [build_tool_name name m tool hb, ih m (name :: seen) ts2 hrec]

/-- Helper: the computed name list is duplicate-free for every input. -/
theorem compute_tool_names_nodup :
    ∀ (opts : McpServerOpts) (m : Option Nat), (compute_tool_names opts m).Nodup := by
  rintro ⟨e, ov⟩ m
  cases e with
  | false =>
    show (dedupe_preserving_order CODE_EDITING_TOOL_NAMES).Nodup
    decide
  | true =>
    by_cases hm : m.getD 0 > 0
    · simp only [compute_tool_names, if_true, if_pos hm]
      decide
    · simp only [compute_tool_names, if_true, if_neg hm]
      decide

/-- C6: with `expose_all_tools = false` (the default), tools/list yields the
eight code-editing names in their fixed order; for every input the computed
name list — and hence the name list of any successful tools/list output —
is duplicate-free; and the output is determined by the pair
(`expose_all_tools`, `max_aux_agents`), independent of the other options. -/
theorem tools_list_default_order_nodup_det :
    (∀ (ov : List (String × String)) (m : Option Nat),
       ∃ ts, list_tools ⟨false, ov⟩ m = Except.ok ts ∧
         ts.map Tool.name =
           ["reply", "codex", "codex-reply", "codex.newConversation",
            "codex.sendUserMessage", "codex.sendUserTurn", "codex.execCommand",
            "codex.gitDiffToRemote"]) ∧
    (∀ (opts : McpServerOpts) (m : Option Nat), (compute_tool_names opts m).Nodup) ∧
    (∀ (opts : McpServerOpts) (m : Option Nat) (ts : List Tool),
       list_tools opts m = Except.ok ts → (ts.map Tool.name).Nodup) ∧
    (∀ (o₁ o₂ : McpServerOpts) (m : Option Nat),
       o₁.expose_all_tools = o₂.expose_all_tools →
       compute_tool_names o₁ m = compute_tool_names o₂ m) := by
  refine ⟨?_, compute_tool_names_nodup, ?_, ?_⟩
  · intro ov m
    exact ⟨DEFAULT_TOOLS, by rfl, by decide⟩
  · intro opts m ts h
    have hnames := listToolsGo_names (compute_tool_names opts m) m [] ts h
    rw [hnames]
    exact compute_tool_names_nodup opts m
  · rintro ⟨e₁, ov₁⟩ ⟨e₂, ov₂⟩ m h
    simp only [] at h
    subst h
    rfl

/-- Witness for C6 at a concrete input: the option overrides do not affect
the computed name list. -/
theorem tools_list_default_order_nodup_det_witness :
    compute_tool_names ⟨true, [("model", "o3")]⟩ (some 1) =
      compute_tool_names ⟨true, []⟩ (some 1) :=
  tools_list_default_order_nodup_det.2.2.2 ⟨true, [("model", "o3")]⟩ ⟨true, []⟩ (some 1)
    rfl

/-- Helper: the boolean prefix test on char lists agrees with the
existence of a completing tail. -/
theorem isPrefixOfE : ∀ (p ys : List Char), p.isPrefixOf ys = true ↔ ∃ t, p ++ t = ys := by
  intro p
  induction p with
  | nil => intro ys; simp [List.isPrefixOf]
  | cons a p ih =>
    intro ys
    cases ys with
    | nil => simp [List.isPrefixOf]
    | cons b ys =>
      simp [List.isPrefixOf, ih ys, List.cons_eq_cons]

/-- Helper: when `findSub` reports index `i`, the pattern occurs at `i`. -/
theorem findSub_some_pre (pat : List Char) :
    ∀ (xs : List Char) (i : Nat),
      findSub pat xs = some i → pat.isPrefixOf (xs.drop i) = true := by
  intro xs
  induction xs with
  | nil =>
    intro i h
    unfold findSub at h
    by_cases hp : pat.isEmpty = true
    · rw [if_pos hp] at h
      cases h
      have : pat = [] := by simpa [List.isEmpty_iff] using hp
      simp [this, List.isPrefixOf]
    · rw [if_neg hp] at h
      cases h
  | cons x xs ih =>
    intro i h
    unfold findSub at h
    by_cases hp : pat.isPrefixOf (x :: xs) = true
    · rw [if_pos hp] at h
      cases h
      simpa using hp
    · rw [if_neg hp] at h
      cases hf : findSub pat xs with
      | none => rw [hf] at h; cases h
      | some j =>
        rw [hf] at h
        have hij : i = j + 1 := by simpa using h.symm
        subst hij
        simpa [List.drop_succ_cons] using ih j hf

/-- Helper: `findSub` reports the first occurrence: the pattern does not
occur at any earlier index. -/
theorem findSub_some_min (pat : List Char) :
    ∀ (xs : List Char) (i : Nat), findSub pat xs = some i →
      ∀ j, j < i → pat.isPrefixOf (xs.drop j) = false := by
  intro xs
  induction xs with
  | nil =>
    intro i h j hj
    unfold findSub at h
    by_cases hp : pat.isEmpty = true
    · rw [if_pos hp] at h
      cases h
      omega
    · rw [if_neg hp] at h
      cases h
  | cons x xs ih =>
    intro i h j hj
    unfold findSub at h
    by_cases hp : pat.isPrefixOf (x :: xs) = true
    · rw [if_pos hp] at h
      cases h
      omega
    · rw [if_neg hp] at h
      cases hf : findSub pat xs with
      | none => rw [hf] at h; cases h
      | some k =>
        rw [hf] at h
        have hik : i = k + 1 := by simpa using h.symm
        subst hik
        cases j with
        | zero =>
          rw [Bool.not_eq_true] at hp
          simpa using hp
        | succ j2 =>
          rw [List.drop_succ_cons]
          exact ih k hf j2 (by omega)

/-- Helper: when `findSub` reports no occurrence, the pattern occurs
nowhere. -/
theorem findSub_none (pat : List Char) :
    ∀ (xs : List Char), findSub pat xs = none →
      ∀ j, pat.isPrefixOf (xs.drop j) = false := by
  intro xs
  induction xs with
  | nil =>
    intro h j
    unfold findSub at h
    by_cases hp : pat.isEmpty = true
    · rw [if_pos hp] at h
      cases h
    · rw [if_neg hp] at h
      rw [List.drop_nil]
      cases pat with
      | nil => simp at hp
      | cons a p => rfl
  | cons x xs ih =>
    intro h j
    unfold findSub at h
    by_cases hp : pat.isPrefixOf (x :: xs) = true
    · rw [if_pos hp] at h
      cases h
    · rw [if_neg hp] at h
      cases j with
      | zero =>
        rw [Bool.not_eq_true] at hp
        simpa using hp
      | succ j2 =>
        rw [List.drop_succ_cons]
        cases hf : findSub pat xs with
        | some k => rw [hf] at h; simp at h
        | none => exact ih hf j2

/-- Helper: a found occurrence decomposes the text around the pattern. -/
theorem findSub_decomp (pat xs : List Char) (i : Nat)
    (h : findSub pat xs = some i) :
    xs = xs.take i ++ pat ++ xs.drop (i + pat.length) := by
  have hpre := findSub_some_pre pat xs i h
  rw [isPrefixOfE] at hpre
  obtain ⟨t, ht⟩ := hpre
  have hdrop : xs.drop (i + pat.length) = t := by
    have h1 : xs.drop (i + pat.length) = (xs.drop i).drop pat.length := by
      rw [List.drop_drop]
    rw [h1, ← ht]
    simp
  calc xs = xs.take i ++ xs.drop i := (List.take_append_drop i xs).symm
    _ = xs.take i ++ (pat ++ t) := by rw [ht]
    _ = xs.take i ++ pat ++ xs.drop (i + pat.length) := by
        rw [hdrop, List.append_assoc]

/-- Helper: a decomposition of the text around the pattern forces `findSub`
to report some occurrence. -/
theorem findSub_found (pat xs pre suf : List Char)
    (h : xs = pre ++ pat ++ suf) : ∃ i, findSub pat xs = some i := by
  cases hf : findSub pat xs with
  | some i => exact ⟨i, rfl⟩
  | none =>
    exfalso
    have hnone := findSub_none pat xs hf pre.length
    have hdrop : xs.drop pre.length = pat ++ suf := by
      rw [h, List.append_assoc]
      simp
    rw [hdrop] at hnone
    have : pat.isPrefixOf (pat ++ suf) = true := (isPrefixOfE pat (pat ++ suf)).mpr ⟨suf, rfl⟩
    rw [this] at hnone
    cases hnone

/-- C8: if the text of the first plain user message contains the marker,
the extracted preview is the whitespace-trimmed remainder after the first
occurrence of the marker; otherwise the preview is the full text; and the
summary preview is exactly this transformation of the first plain user
message text. -/
theorem preview_extraction_spec :
    ∀ (marker text : List Char),
      (∀ pre suf, text = pre ++ marker ++ suf →
        ∃ pre0 suf0, text = pre0 ++ marker ++ suf0 ∧
          preview_after_marker marker text = trimChars suf0 ∧
          ∀ pre2 suf2, text = pre2 ++ marker ++ suf2 → pre0.length ≤ pre2.length) ∧
      ((∀ pre suf, text ≠ pre ++ marker ++ suf) → preview_after_marker marker text = text) ∧
      (∀ (head : List SummaryHeadItem), find_plain_user_text head = some text →
        extract_summary_preview marker head = some (preview_after_marker marker text)) := by
  intro marker text
  refine ⟨?_, ?_, ?_⟩
  · intro pre suf hdec
    obtain ⟨i, hi⟩ := findSub_found marker text pre suf hdec
    refine ⟨text.take i, text.drop (i + marker.length), findSub_decomp marker text i hi,
      ?_, ?_⟩
    · simp [preview_after_marker, hi]
    · intro pre2 suf2 h2
      have hp2 : marker.isPrefixOf (text.drop pre2.length) = true := by
        have hdrop : text.drop pre2.length = marker ++ suf2 := by
          rw [h2, List.append_assoc]
          simp
        rw [hdrop]
        exact (isPrefixOfE marker (marker ++ suf2)).mpr ⟨suf2, rfl⟩
      have hle : i ≤ pre2.length := by
        by_contra hlt
        push_neg at hlt
        have hmin := findSub_some_min marker text i hi pre2.length hlt
        rw [hmin] at hp2
        cases hp2
      have hlen : (text.take i).length ≤ i := by
        rw [List.length_take]
        exact min_le_left _ _
      omega
  · intro hnone
    cases hf : findSub marker text with
    | none => simp [preview_after_marker, hf]
    | some i => exact absurd (findSub_decomp marker text i hf) (hnone _ _)
  · intro head ht
    simp [extract_summary_preview, ht]

/-- Witness for C8 at a concrete input: in the text `a MB x ` with marker
`MB`, the preview is the trimmed remainder `x`. -/
theorem preview_extraction_spec_witness :
    ∃ pre0 suf0, (['a', ' ', 'M', 'B', ' ', 'x', ' '] : List Char) = pre0 ++ ['M', 'B'] ++ suf0 ∧
      preview_after_marker ['M', 'B'] ['a', ' ', 'M', 'B', ' ', 'x', ' '] = trimChars suf0 ∧
      ∀ pre2 suf2, (['a', ' ', 'M', 'B', ' ', 'x', ' '] : List Char) = pre2 ++ ['M', 'B'] ++ suf2 →
        pre0.length ≤ pre2.length :=
  (preview_extraction_spec ['M', 'B'] ['a', ' ', 'M', 'B', ' ', 'x', ' ']).1
    ['a', ' '] [' ', 'x', ' '] rfl

end Codex
